import Mathlib

/-!
Verification development for the Dero ZAP scraping and synchronization
engine (`derozap/client.go` of brensch/assistant).

The Go source is shallowly embedded: pure helpers become Lean functions,
the SQL store becomes an explicit list of rows threaded through the
reconciliation function, and the HTTP transport becomes an oracle from
page numbers to results.  External library behaviour (`time.Parse`,
`html.Parse`, `regexp`, `strings`) is modelled directly at the level the
client uses it.
-/

namespace Derozap

/-! ### String helpers (strings.Contains, strings.TrimSpace) -/

/-- matchHere s pat: pat occurs at the start of s (prefix test used by the
substring scan below). -/
def matchHere : List Char → List Char → Bool
  | _, [] => true
  | [], _ :: _ => false
  | c :: s, p :: ps => (c = p) && matchHere s ps

/-- charsContain pat s: pat occurs somewhere in s. -/
def charsContain (pat : List Char) : List Char → Bool
  | [] => matchHere [] pat
  | c :: t => matchHere (c :: t) pat || charsContain pat t

/-- strContains s pat models Go strings.Contains(s, pat). -/
def strContains (s pat : String) : Bool :=
  charsContain pat.toList s.toList

/-- isSpaceGo models unicode.IsSpace on the characters that occur in the
scraped pages (ASCII whitespace plus NEL and NBSP). -/
def isSpaceGo (c : Char) : Bool :=
  c = ' ' || c = '\t' || c = '\n' || c = '\r' ||
  c = Char.ofNat 11 || c = Char.ofNat 12 || c = Char.ofNat 133 || c = Char.ofNat 160

/-- trimSpace models Go strings.TrimSpace. -/
def trimSpace (s : String) : String :=
  String.mk (((s.toList.dropWhile isSpaceGo).reverse.dropWhile isSpaceGo).reverse)

/-! ### Go time.Parse for the five layouts used by parseZapDate

`time.Parse` is external library code; it is modelled here exactly for
the five reference layouts the client passes to it: fixed two-digit
fields for "01", "02", "03", "04", "05", one-or-two-digit hour for "15",
four-digit year for "2006", literal separators, whole-string consumption,
and calendar range validation. -/

/-- GoDate is the result of a successful time.Parse call: the six
calendar/time components the client can observe. -/
structure GoDate where
  year : ℕ
  month : ℕ
  day : ℕ
  hour : ℕ
  minute : ℕ
  second : ℕ
deriving DecidableEq, Repr

/-- digitVal converts an ASCII digit to its value. -/
def digitVal (c : Char) : ℕ := c.toNat - 48

/-- d2 consumes exactly two digits (Go getnum with fixed width). -/
def d2 : List Char → Option (ℕ × List Char)
  | a :: b :: r => if a.isDigit && b.isDigit then some (10 * digitVal a + digitVal b, r) else none
  | _ => none

/-- d4 consumes exactly four digits (Go stdLongYear). -/
def d4 : List Char → Option (ℕ × List Char)
  | a :: b :: c :: d :: r =>
    if a.isDigit && b.isDigit && c.isDigit && d.isDigit then
      some (1000 * digitVal a + 100 * digitVal b + 10 * digitVal c + digitVal d, r)
    else none
  | _ => none

/-- d1or2 consumes one or two digits, greedily (Go getnum with fixed=false,
used by the "15" hour field). -/
def d1or2 : List Char → Option (ℕ × List Char)
  | [] => none
  | [a] => if a.isDigit then some (digitVal a, []) else none
  | a :: b :: r =>
    if a.isDigit then
      if b.isDigit then some (10 * digitVal a + digitVal b, r) else some (digitVal a, b :: r)
    else none

/-- lit consumes one expected literal character. -/
def lit (c : Char) : List Char → Option (List Char)
  | [] => none
  | x :: r => if x = c then some r else none

/-- isLeap is the Gregorian leap-year rule Go uses for day validation. -/
def isLeap (y : ℕ) : Bool :=
  (y % 4 = 0 && y % 100 ≠ 0) || y % 400 = 0

/-- daysInMonth y m: number of days Go accepts for month m of year y. -/
def daysInMonth (y m : ℕ) : ℕ :=
  if m = 2 then (if isLeap y then 29 else 28)
  else if m = 4 ∨ m = 6 ∨ m = 9 ∨ m = 11 then 30
  else 31

/-- validDate is Go time.Parse range validation for a calendar date. -/
def validDate (y m d : ℕ) : Bool :=
  1 ≤ m && m ≤ 12 && 1 ≤ d && d ≤ daysInMonth y m

/-- parseDateMDY consumes "01/02/2006" (two-digit month, slash, two-digit
day, slash, four-digit year) and returns the components plus the rest. -/
def parseDateMDY (s : List Char) : Option (ℕ × ℕ × ℕ × List Char) := do
  let (mo, r1) ← d2 s
  let r2 ← lit '/' r1
  let (dy, r3) ← d2 r2
  let r4 ← lit '/' r3
  let (yr, r5) ← d4 r4
  pure (yr, mo, dy, r5)

/-- parseDateYMD consumes "2006-01-02" and returns components plus rest. -/
def parseDateYMD (s : List Char) : Option (ℕ × ℕ × ℕ × List Char) := do
  let (yr, r1) ← d4 s
  let r2 ← lit '-' r1
  let (mo, r3) ← d2 r2
  let r4 ← lit '-' r3
  let (dy, r5) ← d2 r4
  pure (yr, mo, dy, r5)

/-- parseClock24 consumes "15:04:05" (one-or-two-digit 24-hour, two-digit
minute and second) and returns components plus rest. -/
def parseClock24 (s : List Char) : Option (ℕ × ℕ × ℕ × List Char) := do
  let (h, r1) ← d1or2 s
  let r2 ← lit ':' r1
  let (mi, r3) ← d2 r2
  let r4 ← lit ':' r3
  let (se, r5) ← d2 r4
  if h ≤ 23 ∧ mi ≤ 59 ∧ se ≤ 59 then pure (h, mi, se, r5) else none

/-- parseClock12 consumes "03:04:05 PM" (two-digit 12-hour clock, then the
upper-case meridiem) and returns the 24-hour components plus rest. -/
def parseClock12 (s : List Char) : Option (ℕ × ℕ × ℕ × List Char) := do
  let (h, r1) ← d2 s
  let r2 ← lit ':' r1
  let (mi, r3) ← d2 r2
  let r4 ← lit ':' r3
  let (se, r5) ← d2 r4
  let r6 ← lit ' ' r5
  match r6 with
  | 'P' :: 'M' :: r7 =>
    if h ≤ 12 ∧ mi ≤ 59 ∧ se ≤ 59 then
      pure ((if h < 12 then h + 12 else h), mi, se, r7)
    else none
  | 'A' :: 'M' :: r7 =>
    if h ≤ 12 ∧ mi ≤ 59 ∧ se ≤ 59 then
      pure ((if h = 12 then 0 else h), mi, se, r7)
    else none
  | _ => none

/-- layoutMDY parses with the layout "01/02/2006". -/
def layoutMDY (s : List Char) : Option GoDate := do
  let (yr, mo, dy, rest) ← parseDateMDY s
  if rest = [] ∧ validDate yr mo dy then pure ⟨yr, mo, dy, 0, 0, 0⟩ else none

/-- layoutMDY12 parses with the layout "01/02/2006 03:04:05 PM". -/
def layoutMDY12 (s : List Char) : Option GoDate := do
  let (yr, mo, dy, r1) ← parseDateMDY s
  let r2 ← lit ' ' r1
  let (h, mi, se, rest) ← parseClock12 r2
  if rest = [] ∧ validDate yr mo dy then pure ⟨yr, mo, dy, h, mi, se⟩ else none

/-- layoutMDY24 parses with the layout "01/02/2006 15:04:05". -/
def layoutMDY24 (s : List Char) : Option GoDate := do
  let (yr, mo, dy, r1) ← parseDateMDY s
  let r2 ← lit ' ' r1
  let (h, mi, se, rest) ← parseClock24 r2
  if rest = [] ∧ validDate yr mo dy then pure ⟨yr, mo, dy, h, mi, se⟩ else none

/-- layoutYMD parses with the layout "2006-01-02". -/
def layoutYMD (s : List Char) : Option GoDate := do
  let (yr, mo, dy, rest) ← parseDateYMD s
  if rest = [] ∧ validDate yr mo dy then pure ⟨yr, mo, dy, 0, 0, 0⟩ else none

/-- layoutYMD24 parses with the layout "2006-01-02 15:04:05". -/
def layoutYMD24 (s : List Char) : Option GoDate := do
  let (yr, mo, dy, r1) ← parseDateYMD s
  let r2 ← lit ' ' r1
  let (h, mi, se, rest) ← parseClock24 r2
  if rest = [] ∧ validDate yr mo dy then pure ⟨yr, mo, dy, h, mi, se⟩ else none

/-- zapLayouts is the formats slice of parseZapDate, in source order. -/
def zapLayouts : List (List Char → Option GoDate) :=
  [layoutMDY, layoutMDY12, layoutMDY24, layoutYMD, layoutYMD24]

/-- firstSome tries parsers in order and keeps the first success, like the
for-loop over formats in parseZapDate. -/
def firstSome : List (List Char → Option GoDate) → List Char → Option GoDate
  | [], _ => none
  | p :: ps, s =>
    match p s with
    | some d => some d
    | none => firstSome ps s

/-- parseZapDate models derozap.parseZapDate: first a direct attempt with
"01/02/2006", then the five-element formats slice in order. -/
def parseZapDate (s : String) : Option GoDate :=
  match layoutMDY s.toList with
  | some d => some d
  | none => firstSome zapLayouts s.toList

/-- pad2 prints a number as at least two digits, zero padded. -/
def pad2 (n : ℕ) : String :=
  if n < 10 then "0" ++ toString n else toString n

/-- pad4 prints a number as at least four digits, zero padded. -/
def pad4 (n : ℕ) : String :=
  if n < 10 then "000" ++ toString n
  else if n < 100 then "00" ++ toString n
  else if n < 1000 then "0" ++ toString n
  else toString n

/-- formatISO models zapDate.Format with reference layout "2006-01-02". -/
def formatISO (d : GoDate) : String :=
  pad4 d.year ++ "-" ++ pad2 d.month ++ "-" ++ pad2 d.day

/-! ### The record and store model -/

/-- TagRead mirrors derozap.TagRead; the RawData map is modelled as an
association list in insertion order (keys are distinct by construction). -/
structure TagRead where
  Date : String
  TagID : String
  RawData : List (String × String)
deriving DecidableEq, Repr

/-- StoredRow is one row of the derozap_reads table: zap_date and tag_id
form the primary key, recorded_at is the insertion timestamp. -/
structure StoredRow where
  zap_date : String
  tag_id : String
  recorded_at : ℕ
deriving DecidableEq, Repr

/-- Store is the state of the derozap_reads table, rows in insertion
order. -/
abbrev Store := List StoredRow

/-- countByKey models the existence query
SELECT COUNT(*) FROM derozap_reads WHERE zap_date = ? AND tag_id = ?. -/
def countByKey (s : Store) (d t : String) : ℕ :=
  List.countP (fun r => r.zap_date = d && r.tag_id = t) s

/-- Fault lets a run inject the store-operation failures the Go code
tolerates per record: a failed existence query, a failed row scan, or a
failed insert; the fault assignment is a function of the key the
operation uses. -/
inductive Fault where
  | ok
  | qFail
  | sFail
  | iFail
deriving DecidableEq, Repr

/-- Faults assigns to each (formatted date, tag id) key the outcome of the
store operations issued for it during one run. -/
def Faults := String → String → Fault

/-- StoreResult mirrors the (int, error) return of storeNewTagReads,
together with the table state after the call. -/
structure StoreResult where
  count : ℕ
  err : Option String
  store : Store

/-- storeNewTagReads models derozap.(*Client).storeNewTagReads: for each
candidate, parse its date (skip on failure), run the existence query
(skip on query or scan failure), and insert only when the key is absent
(skip on insert failure); the error return is nil on every path. -/
def storeNewTagReads (f : Faults) (now : ℕ) : List TagRead → Store → StoreResult
  | [], s => ⟨0, none, s⟩
  | tr :: rest, s =>
    match parseZapDate tr.Date with
    | none => storeNewTagReads f now rest s
    | some zapDate =>
      let formattedDate := formatISO zapDate
      if f formattedDate tr.TagID = Fault.qFail then storeNewTagReads f now rest s
      else if f formattedDate tr.TagID = Fault.sFail then storeNewTagReads f now rest s
      else if countByKey s formattedDate tr.TagID = 0 then
        if f formattedDate tr.TagID = Fault.iFail then storeNewTagReads f now rest s
        else
          let r := storeNewTagReads f now rest (s ++ [⟨formattedDate, tr.TagID, now⟩])
          ⟨r.count + 1, r.err, r.store⟩
      else storeNewTagReads f now rest s

/-- noFaults is the fault-free environment: every store operation
succeeds. -/
def noFaults : Faults := fun _ _ => Fault.ok

/-- reconcileSpec is the spec-side contract of section 4.4,
reconcile(candidates) -> newlyInserted, written from the spec wording:
it walks the candidates exactly like storeNewTagReads but returns the
newly inserted records themselves, in input order. -/
def reconcileSpec (f : Faults) (now : ℕ) : List TagRead → Store → List TagRead × Store
  | [], s => ([], s)
  | tr :: rest, s =>
    match parseZapDate tr.Date with
    | none => reconcileSpec f now rest s
    | some zapDate =>
      let formattedDate := formatISO zapDate
      if f formattedDate tr.TagID = Fault.qFail then reconcileSpec f now rest s
      else if f formattedDate tr.TagID = Fault.sFail then reconcileSpec f now rest s
      else if countByKey s formattedDate tr.TagID = 0 then
        if f formattedDate tr.TagID = Fault.iFail then reconcileSpec f now rest s
        else
          let r := reconcileSpec f now rest (s ++ [⟨formattedDate, tr.TagID, now⟩])
          (tr :: r.1, r.2)
      else reconcileSpec f now rest s

/-- keysNodup: no two rows of the table share the (zap_date, tag_id)
primary key. -/
def keysNodup (s : Store) : Prop :=
  List.Pairwise (fun a b => ¬(a.zap_date = b.zap_date ∧ a.tag_id = b.tag_id)) s

/-- stripRaw drops the extra-column map of a record, keeping the dedup
key fields. -/
def stripRaw (tr : TagRead) : TagRead :=
  { Date := tr.Date, TagID := tr.TagID, RawData := [] }

/-- runSeq folds a sequence of reconcile calls, each with its own fault
environment, timestamp and candidate batch, over the store. -/
def runSeq : List (Faults × ℕ × List TagRead) → Store → Store
  | [], s => s
  | (f, now, batch) :: rest, s => runSeq rest (storeNewTagReads f now batch s).store

/-- startStoreErrorBranch is the condition of the poller branch in Start
that handles a non-nil error from storeNewTagReads. -/
def startStoreErrorBranch (r : StoreResult) : Bool :=
  r.err.isSome

/-! ### The HTML node model and the record extractor

golang.org/x/net/html parses any byte stream into a node tree
(FirstChild/NextSibling links); the client walks that tree.  The tree is
embedded as a mutual inductive: a node is an element (tag, attributes,
children), a text node, or any other node kind (comment, doctype), and a
forest is the sibling list. -/

mutual
inductive HNode where
  | elem : String → List (String × String) → HForest → HNode
  | text : String → HNode
  | other : String → HNode
inductive HForest where
  | nil : HForest
  | cons : HNode → HForest → HForest
end

/-- isReportTable checks one node the way findTable does: an element
named table with a class attribute whose value contains "reportTable". -/
def isReportTable : HNode → Bool
  | .elem t attrs _ => t = "table" && attrs.any fun a => a.1 = "class" && strContains a.2 "reportTable"
  | _ => false

mutual
/-- findTable models the findTable closure of parseTagReads: depth-first,
return the node itself if it is the marked table, else the first match
among the children. -/
def findTable : HNode → Option HNode
  | .elem t a cs =>
    if isReportTable (.elem t a cs) then some (.elem t a cs) else findTableF cs
  | .text _ => none
  | .other _ => none
/-- findTableF scans a sibling list left to right. -/
def findTableF : HForest → Option HNode
  | .nil => none
  | .cons n rest =>
    match findTable n with
    | some x => some x
    | none => findTableF rest
end

/-- isTd: a cell node, an element named td. -/
def isTd : HNode → Bool
  | .elem t _ _ => t = "td"
  | _ => false

/-- isTr: a row node, an element named tr. -/
def isTr : HNode → Bool
  | .elem t _ _ => t = "tr"
  | _ => false

/-- tds collects the direct children of a row that are td elements, in
document order, like the cell-collection loop of processRow. -/
def tds : HForest → List HNode
  | .nil => []
  | .cons n rest => (if isTd n then [n] else []) ++ tds rest

/-- firstTextData returns the data of the first direct text-node child,
like the break-on-first-TextNode loops of processRow. -/
def firstTextData : HForest → Option String
  | .nil => none
  | .cons (.text s) _ => some s
  | .cons _ rest => firstTextData rest

/-- cellText: the trimmed text of a cell, empty when the cell has no
direct text child. -/
def cellText : HNode → String
  | .elem _ _ cs =>
    match firstTextData cs with
    | some s => trimSpace s
    | none => ""
  | _ => ""

/-- rawFields builds the RawData entries for the cells from index 2 on,
keyed field_i as in processRow. -/
def rawFields : ℕ → List HNode → List (String × String)
  | _, [] => []
  | i, c :: rest => ("field_" ++ toString i, cellText c) :: rawFields (i + 1) rest

/-- rowRecord is the row-processing body of processRow: with at least two
cells and non-empty trimmed date and tag texts it yields a record, else
nothing. -/
def rowRecord : HNode → Option TagRead
  | .elem t _ cs =>
    if t = "tr" then
      match tds cs with
      | c0 :: c1 :: restCells =>
        let date := cellText c0
        let tagID := cellText c1
        if date ≠ "" ∧ tagID ≠ "" then
          some { Date := date, TagID := tagID, RawData := rawFields 2 restCells }
        else none
      | _ => none
    else none
  | _ => none

mutual
/-- extractRows models the recursive processRow traversal: emit the
current node's record when it is a row, then process all children. -/
def extractRows : HNode → List TagRead
  | .elem t a cs =>
    (if t = "tr" then (rowRecord (.elem t a cs)).toList else []) ++ extractRowsF cs
  | .text _ => []
  | .other _ => []
/-- extractRowsF traverses a sibling list left to right. -/
def extractRowsF : HForest → List TagRead
  | .nil => []
  | .cons n rest => extractRows n ++ extractRowsF rest
end

/-- parseTagReadsE models derozap.parseTagReads from the parsed node tree
on: no marked table is a hard error, otherwise the rows of the first
marked table are extracted.  (html.Parse itself never rejects a byte
stream; it is the tolerant HTML5 parser.) -/
def parseTagReadsE (doc : HNode) : Except String (List TagRead) :=
  match findTable doc with
  | none => .error "report table not found in HTML response"
  | some table => .ok (extractRows table)

mutual
/-- hasReportTable: the document contains some table element whose class
attribute contains the marker token. -/
def hasReportTable : HNode → Bool
  | .elem t a cs => isReportTable (.elem t a cs) || hasReportTableF cs
  | .text _ => false
  | .other _ => false
/-- hasReportTableF: some node of the forest contains a marked table. -/
def hasReportTableF : HForest → Bool
  | .nil => false
  | .cons n rest => hasReportTable n || hasReportTableF rest
end

mutual
/-- trList collects, in document order, every row element of the subtree
(the nodes the processRow traversal treats as rows). -/
def trList : HNode → List HNode
  | .elem t a cs => (if t = "tr" then [HNode.elem t a cs] else []) ++ trListF cs
  | .text _ => []
  | .other _ => []
/-- trListF collects the row elements of a forest. -/
def trListF : HForest → List HNode
  | .nil => []
  | .cons n rest => trList n ++ trListF rest
end

/-- cellsOf: the cell children of a node (empty for non-elements). -/
def cellsOf : HNode → List HNode
  | .elem _ _ cs => tds cs
  | _ => []

/-- dummyCell is a placeholder for out-of-range indexing in rowSpec. -/
def dummyCell : HNode := .text ""

/-- rowSpec is the claim-side row rule, written from the spec wording:
a table-row with at least 2 cell children and non-empty trimmed date and
tag texts maps to a record whose further cells are keyed by ordinal
position; every other row is skipped. -/
def rowSpec (n : HNode) : Option TagRead :=
  let cells := cellsOf n
  if isTr n = true ∧ 2 ≤ cells.length ∧
      cellText (cells.getD 0 dummyCell) ≠ "" ∧ cellText (cells.getD 1 dummyCell) ≠ "" then
    some { Date := cellText (cells.getD 0 dummyCell)
           TagID := cellText (cells.getD 1 dummyCell)
           RawData := (List.range (cells.length - 2)).map fun j =>
             ("field_" ++ toString (j + 2), cellText (cells.getD (j + 2) dummyCell)) }
  else none

/-! ### Login outcome classification -/

/-- LoginOutcome is the classification Login gives a login response. -/
inductive LoginOutcome where
  | success
  | invalidCredentials
  | indeterminate
deriving DecidableEq, Repr

/-- classifyLogin models the outcome classification of Login over the
response body, the final (post-redirect) URL, and the status code. -/
def classifyLogin (body finalURL : String) (status : ℕ) : LoginOutcome :=
  if strContains body "Welcome," then .success
  else if strContains body "Login failed" || strContains body "Invalid login" then .invalidCredentials
  else if status = 200 && (strContains finalURL "s=commuter" || !strContains finalURL "s=login") then .success
  else .indeterminate

/-! ### Pagination: the page-count regex and the fetch loop -/

/-- isReSpace is the RE2 perl class backslash-s: tab, newline, form feed,
carriage return, space. -/
def isReSpace (c : Char) : Bool :=
  c = ' ' || c = '\t' || c = '\n' || c = Char.ofNat 12 || c = '\r'

/-- spanP splits off the longest run satisfying p. -/
def spanP (p : Char → Bool) : List Char → List Char × List Char
  | [] => ([], [])
  | c :: rest =>
    if p c then
      let r := spanP p rest
      (c :: r.1, r.2)
    else ([], c :: rest)

/-- digitsToNat reads a digit run as its unbounded numeric value (the
accumulation loop inside strconv.Atoi, before its range check). -/
def digitsToNat (ds : List Char) : ℕ :=
  ds.foldl (fun a c => 10 * a + digitVal c) 0

/-- maxGoInt is the largest value Go's int holds on the 64-bit platforms
the client runs on; strconv.Atoi reports a range error above it. -/
def maxGoInt : ℕ := 9223372036854775807

/-- goAtoi models strconv.Atoi on an all-digit capture: the numeric
value when it fits a 64-bit int, a range error (none) when it
overflows. -/
def goAtoi (ds : List Char) : Option ℕ :=
  if digitsToNat ds ≤ maxGoInt then some (digitsToNat ds) else none

/-- litStr consumes an expected literal character sequence. -/
def litStr : List Char → List Char → Option (List Char)
  | [], s => some s
  | c :: cs, s => (lit c s).bind (litStr cs)

/-- matchPagination tries the regex page backslash-s+ digits
backslash-s+ of backslash-s+ (digits) at the start of the input and
returns the captured digit run, like one FindSubmatch attempt; the
character classes are disjoint from the literals, so greedy maximal
munch is exact here. -/
def matchPagination (s : List Char) : Option (List Char) := do
  let r1 ← litStr ['p', 'a', 'g', 'e'] s
  let (ws1, r2) := spanP isReSpace r1
  if ws1 = [] then none else
  let (ds1, r3) := spanP Char.isDigit r2
  if ds1 = [] then none else
  let (wsm, r4) := spanP isReSpace r3
  if wsm = [] then none else
  let r5 ← litStr ['o', 'f'] r4
  let (ws2, r6) := spanP isReSpace r5
  if ws2 = [] then none else
  let (ds2, _) := spanP Char.isDigit r6
  if ds2 = [] then none else
  pure ds2

/-- scanPagination finds the leftmost regex match in the body and
returns its capture, like regexp.FindSubmatch. -/
def scanPagination : List Char → Option (List Char)
  | [] => matchPagination []
  | c :: rest =>
    match matchPagination (c :: rest) with
    | some ds => some ds
    | none => scanPagination rest

/-- extractTotalPages models derozap.extractTotalPages: the captured
count when the pagination string matches, Atoi succeeds and the value is
positive; the default of 1 when the string is absent, the capture
overflows Atoi, or the value is zero. -/
def extractTotalPages (body : String) : ℕ :=
  match scanPagination body.toList with
  | some ds =>
    match goAtoi ds with
    | some totalPages => if totalPages > 0 then totalPages else 1
    | none => 1
  | none => 1

/-- Page is what one successful page request yields the client: the
parsed node tree consumed by parseTagReads and the raw body consumed by
extractTotalPages. -/
structure Page where
  doc : HNode
  body : String

/-- Net is the transport oracle: for each page number (page n above 1 is
requested with the pg parameter appended to the report URL), either the
fetched page or a transport or body-read error. -/
def Net := ℕ → Except String Page

/-- fetchRest is the fetch loop of FetchTagReads for pages k, k+1, ...,
total, accumulating extracted records; the bound total is already fixed
after page 1. -/
def fetchRest (net : Net) (total : ℕ) (k : ℕ) (acc : List TagRead) : Except String (List TagRead) :=
  if _h : k ≤ total then
    match net k with
    | .error e => .error e
    | .ok p =>
      match parseTagReadsE p.doc with
      | .error e => .error e
      | .ok r => fetchRest net total (k + 1) (acc ++ r)
  else .ok acc
termination_by total + 1 - k
decreasing_by omega

/-- FetchTagReads models derozap.(*Client).FetchTagReads after login:
fetch and parse page 1, read the total page count from its body, then
loop over the remaining pages; any failure aborts the whole fetch.  The
Go loop updates its bound once, after the first iteration; that first
iteration is unrolled here so the loop bound is a constant. -/
def FetchTagReads (net : Net) : Except String (List TagRead) :=
  match net 1 with
  | .error e => .error e
  | .ok p1 =>
    match parseTagReadsE p1.doc with
    | .error e => .error e
    | .ok r1 => fetchRest net (extractTotalPages p1.body) 2 r1

/-! ### Concrete fixtures used by the witness theorems -/

/-- trA is a sample candidate with a parseable date. -/
def trA : TagRead := ⟨"01/02/2024", "tagA", []⟩

/-- trB is a sample candidate sharing trA's date with another tag. -/
def trB : TagRead := ⟨"01/02/2024", "tagB", []⟩

/-- trDup has trA's dedup key but different extra fields. -/
def trDup : TagRead := ⟨"01/02/2024", "tagA", [("field_2", "x")]⟩

/-- trBad has a date that matches none of the accepted layouts. -/
def trBad : TagRead := ⟨"not a date", "tagC", []⟩

/-- allQFail makes every existence query fail. -/
def allQFail : Faults := fun _ _ => Fault.qFail

/-- sampleRow is a report row with a date cell, a tag cell and one extra
cell. -/
def sampleRow : HNode :=
  .elem "tr" []
    (.cons (.elem "td" [] (.cons (.text " 01/02/2024 ") .nil))
      (.cons (.elem "td" [] (.cons (.text "TAG1") .nil))
        (.cons (.elem "td" [] (.cons (.text "extra") .nil)) .nil)))

/-- sampleTable is a marked report table holding sampleRow. -/
def sampleTable : HNode :=
  .elem "table" [("class", "foo reportTable bar")] (.cons sampleRow .nil)

/-- sampleDoc is a document containing sampleTable. -/
def sampleDoc : HNode :=
  .elem "html" [] (.cons (.elem "body" [] (.cons sampleTable .nil)) .nil)

/-- emptyDoc is a document with no report table. -/
def emptyDoc : HNode := .elem "html" [] .nil

/-- mkPage builds a one-row report page for a given date, tag and raw
body. -/
def mkPage (date tag body : String) : Page :=
  ⟨.elem "html" []
    (.cons (.elem "table" [("class", "reportTable")]
      (.cons (.elem "tr" []
        (.cons (.elem "td" [] (.cons (.text date) .nil))
          (.cons (.elem "td" [] (.cons (.text tag) .nil)) .nil))) .nil)) .nil),
   body⟩

/-- pageW assigns the two fixture pages of the pagination witness. -/
def pageW : ℕ → Page
  | 2 => mkPage "01/03/2024" "T2" "page 2 of 2"
  | _ => mkPage "01/02/2024" "T1" "page 1 of 2"

/-- recsW lists the records each fixture page extracts to. -/
def recsW : ℕ → List TagRead
  | 2 => [⟨"01/03/2024", "T2", []⟩]
  | _ => [⟨"01/02/2024", "T1", []⟩]

/-- netW is a fault-free transport serving the two fixture pages. -/
def netW : Net := fun k =>
  if k ≤ 2 then .ok (pageW k) else .error "no such page"

/-- netDown is a transport whose first request already fails. -/
def netDown : Net := fun _ => .error "connection refused"

/-! ### Lemmas about the reconciliation store -/

theorem countByKey_append (s1 s2 : Store) (d t : String) :
    countByKey (s1 ++ s2) d t = countByKey s1 d t + countByKey s2 d t := by
  simp [countByKey, List.countP_append]

theorem store_append (f : Faults) (now : ℕ) (b : List TagRead) (s : Store) :
    ∃ ext, (storeNewTagReads f now b s).store = s ++ ext := by
  induction b generalizing s with
  | nil => exact ⟨[], by simp [storeNewTagReads]⟩
  | cons tr rest ih =>
    simp only [storeNewTagReads]
    cases hp : parseZapDate tr.Date with
    | none => exact ih s
    | some zd =>
      dsimp only
      split_ifs with h1 h2 h3 h4
      · exact ih s
      · exact ih s
      · exact ih s
      · obtain ⟨ext, hext⟩ := ih (s ++ [⟨formatISO zd, tr.TagID, now⟩])
        exact ⟨⟨formatISO zd, tr.TagID, now⟩ :: ext, by simpa using hext⟩
      · exact ih s

theorem key_mono (f : Faults) (now : ℕ) (b : List TagRead) (s : Store) (d t : String)
    (h : 0 < countByKey s d t) :
    0 < countByKey (storeNewTagReads f now b s).store d t := by
  obtain ⟨ext, hext⟩ := store_append f now b s
  rw [hext, countByKey_append]
  omega

theorem err_none (f : Faults) (now : ℕ) (b : List TagRead) (s : Store) :
    (storeNewTagReads f now b s).err = none := by
  induction b generalizing s with
  | nil => rfl
  | cons tr rest ih =>
    simp only [storeNewTagReads]
    cases hp : parseZapDate tr.Date with
    | none => exact ih s
    | some zd =>
      dsimp only
      split_ifs with h1 h2 h3 h4
      · exact ih s
      · exact ih s
      · exact ih s
      · exact ih (s ++ [⟨formatISO zd, tr.TagID, now⟩])
      · exact ih s

theorem nodup_preserved (f : Faults) (now : ℕ) (b : List TagRead) (s : Store)
    (h : keysNodup s) :
    keysNodup (storeNewTagReads f now b s).store := by
  induction b generalizing s with
  | nil => exact h
  | cons tr rest ih =>
    simp only [storeNewTagReads]
    cases hp : parseZapDate tr.Date with
    | none => exact ih s h
    | some zd =>
      dsimp only
      split_ifs with h1 h2 h3 h4
      · exact ih s h
      · exact ih s h
      · exact ih s h
      · refine ih (s ++ [⟨formatISO zd, tr.TagID, now⟩]) ?_
        rw [keysNodup, List.pairwise_append]
        refine ⟨h, List.pairwise_singleton _ _, ?_⟩
        intro a ha b hb hk
        have hb1 : b = ⟨formatISO zd, tr.TagID, now⟩ := by simpa using hb
        subst hb1
        have hz := List.countP_eq_zero.mp h3 a ha
        simp only [Bool.and_eq_true, decide_eq_true_eq] at hz
        exact hz ⟨hk.1, hk.2⟩
      · exact ih s h

theorem parseable_key_present (f : Faults) (hf : ∀ d t, f d t = Fault.ok) (now : ℕ)
    (b : List TagRead) (s : Store) (tr : TagRead) (htr : tr ∈ b) (zd : GoDate)
    (hzd : parseZapDate tr.Date = some zd) :
    0 < countByKey (storeNewTagReads f now b s).store (formatISO zd) tr.TagID := by
  induction b generalizing s with
  | nil => cases htr
  | cons hd rest ih =>
    simp only [storeNewTagReads]
    cases hp : parseZapDate hd.Date with
    | none =>
      rcases List.mem_cons.mp htr with heq | hmem
      · subst heq; rw [hzd] at hp; cases hp
      · exact ih s hmem
    | some zdh =>
      have hok := hf (formatISO zdh) hd.TagID
      dsimp only
      split_ifs with h1 h2 h3 h4
      · rw [h1] at hok; cases hok
      · rw [h2] at hok; cases hok
      · rw [h4] at hok; cases hok
      · rcases List.mem_cons.mp htr with heq | hmem
        · subst heq
          rw [hzd] at hp
          injection hp with hp
          subst hp
          have : 0 < countByKey (s ++ [⟨formatISO zd, tr.TagID, now⟩]) (formatISO zd) tr.TagID := by
            rw [countByKey_append]
            simp [countByKey, List.countP_cons]
          simpa using key_mono f now rest _ _ _ this
        · simpa using ih (s ++ [⟨formatISO zdh, hd.TagID, now⟩]) hmem
      · rcases List.mem_cons.mp htr with heq | hmem
        · subst heq
          rw [hzd] at hp
          injection hp with hp
          subst hp
          exact key_mono f now rest s _ _ (by omega)
        · exact ih s hmem

theorem all_present_count_zero (f : Faults) (now : ℕ) (b : List TagRead) (s : Store)
    (h : ∀ tr ∈ b, ∀ zd, parseZapDate tr.Date = some zd →
      0 < countByKey s (formatISO zd) tr.TagID) :
    (storeNewTagReads f now b s).count = 0 := by
  induction b with
  | nil => rfl
  | cons tr rest ih =>
    simp only [storeNewTagReads]
    cases hp : parseZapDate tr.Date with
    | none => exact ih fun a ha => h a (List.mem_cons_of_mem _ ha)
    | some zd =>
      dsimp only
      split_ifs with h1 h2 h3 h4
      · exact ih fun a ha => h a (List.mem_cons_of_mem _ ha)
      · exact ih fun a ha => h a (List.mem_cons_of_mem _ ha)
      · exact absurd h3 (by have := h tr (List.mem_cons_self _ _) zd hp; omega)
      · exact absurd h3 (by have := h tr (List.mem_cons_self _ _) zd hp; omega)
      · exact ih fun a ha => h a (List.mem_cons_of_mem _ ha)

theorem strip_raw_invariant (f : Faults) (now : ℕ) (b : List TagRead) (s : Store) :
    storeNewTagReads f now (b.map stripRaw) s = storeNewTagReads f now b s := by
  induction b generalizing s with
  | nil => rfl
  | cons tr rest ih =>
    simp only [List.map_cons, storeNewTagReads, stripRaw]
    cases hp : parseZapDate tr.Date with
    | none => exact ih s
    | some zd =>
      dsimp only
      split_ifs with h1 h2 h3 h4
      · exact ih s
      · exact ih s
      · exact ih s
      · simp only [ih]
      · exact ih s

theorem count_eq_spec (f : Faults) (now : ℕ) (b : List TagRead) (s : Store) :
    (storeNewTagReads f now b s).count = (reconcileSpec f now b s).1.length ∧
    (storeNewTagReads f now b s).store = (reconcileSpec f now b s).2 ∧
    List.Sublist (reconcileSpec f now b s).1 b := by
  induction b generalizing s with
  | nil => exact ⟨rfl, rfl, List.Sublist.refl _⟩
  | cons tr rest ih =>
    simp only [storeNewTagReads, reconcileSpec]
    cases hp : parseZapDate tr.Date with
    | none => exact ⟨(ih s).1, (ih s).2.1, List.sublist_cons_of_sublist _ (ih s).2.2⟩
    | some zd =>
      dsimp only
      split_ifs with h1 h2 h3 h4
      · exact ⟨(ih s).1, (ih s).2.1, List.sublist_cons_of_sublist _ (ih s).2.2⟩
      · exact ⟨(ih s).1, (ih s).2.1, List.sublist_cons_of_sublist _ (ih s).2.2⟩
      · exact ⟨(ih s).1, (ih s).2.1, List.sublist_cons_of_sublist _ (ih s).2.2⟩
      · refine ⟨?_, ?_, ?_⟩
        · simp [(ih (s ++ [⟨formatISO zd, tr.TagID, now⟩])).1]
        · exact (ih (s ++ [⟨formatISO zd, tr.TagID, now⟩])).2.1
        · exact List.Sublist.cons₂ _ (ih (s ++ [⟨formatISO zd, tr.TagID, now⟩])).2.2
      · exact ⟨(ih s).1, (ih s).2.1, List.sublist_cons_of_sublist _ (ih s).2.2⟩

/-! ### Claim theorems: reconciliation -/

/-- C1: at-most-once recording.  After any sequence of storeNewTagReads
calls over any candidate batches (each with its own fault environment
and timestamp), the store keeps at most one row per (zap_date, tag_id)
key; existing rows are never updated or deleted, only new rows are
appended; and the extra fields of a candidate play no role, so two
TagReads with identical (date, tagID) but different extra fields are the
same event and only the first insert for a key survives. -/
theorem at_most_once_recording :
    (∀ (runs : List (Faults × ℕ × List TagRead)) (s : Store),
      keysNodup s → keysNodup (runSeq runs s)) ∧
    (∀ (runs : List (Faults × ℕ × List TagRead)) (s : Store),
      ∃ ext, runSeq runs s = s ++ ext) ∧
    (∀ (f : Faults) (now : ℕ) (b : List TagRead) (s : Store),
      storeNewTagReads f now (b.map stripRaw) s = storeNewTagReads f now b s) := by
  refine ⟨?_, ?_, strip_raw_invariant⟩
  · intro runs
    induction runs with
    | nil => exact fun s h => h
    | cons run rest ih =>
      intro s h
      exact ih _ (nodup_preserved run.1 run.2.1 run.2.2 s h)
  · intro runs
    induction runs with
    | nil => exact fun s => ⟨[], by simp [runSeq]⟩
    | cons run rest ih =>
      intro s
      obtain ⟨e1, h1⟩ := store_append run.1 run.2.1 run.2.2 s
      obtain ⟨e2, h2⟩ := ih (storeNewTagReads run.1 run.2.1 run.2.2 s).store
      refine ⟨e1 ++ e2, ?_⟩
      show runSeq rest (storeNewTagReads run.1 run.2.1 run.2.2 s).store = _
      rw [h2, h1, List.append_assoc]

/-- at_most_once_recording applied to a concrete two-call sequence over
the empty store, with a key-duplicate candidate in the first batch. -/
theorem at_most_once_recording_witness :
    keysNodup (runSeq [(noFaults, 0, [trA, trDup]), (noFaults, 1, [trA])] []) ∧
    (∃ ext, runSeq [(noFaults, 0, [trA, trDup])] [] = ([] : Store) ++ ext) ∧
    storeNewTagReads noFaults 0 ([trA, trDup].map stripRaw) [] =
      storeNewTagReads noFaults 0 [trA, trDup] [] :=
  ⟨at_most_once_recording.1 _ [] List.Pairwise.nil,
   at_most_once_recording.2.1 _ [],
   at_most_once_recording.2.2 noFaults 0 [trA, trDup] []⟩

/-- C2: reconciliation idempotence.  If a batch is reconciled once with
every store operation succeeding, reconciling the identical batch again
on the resulting store (under any fault environment) inserts nothing:
the second call reports zero new records. -/
theorem reconcile_idempotent (f1 f2 : Faults) (hf : ∀ d t, f1 d t = Fault.ok)
    (now1 now2 : ℕ) (batch : List TagRead) (s : Store) :
    (storeNewTagReads f2 now2 batch (storeNewTagReads f1 now1 batch s).store).count = 0 := by
  apply all_present_count_zero
  intro tr htr zd hzd
  exact parseable_key_present f1 hf now1 batch s tr htr zd hzd

/-- reconcile_idempotent applied to a concrete batch over the empty
store. -/
theorem reconcile_idempotent_witness :
    (storeNewTagReads noFaults 1 [trA, trB]
      (storeNewTagReads noFaults 0 [trA, trB] []).store).count = 0 :=
  reconcile_idempotent noFaults noFaults (fun _ _ => rfl) 0 1 [trA, trB] []

/-- C3 counterexample: storeNewTagReads does not return the newly
inserted records as a TagRead list; it returns only their number.  Two
runs that insert different records return equal values, so no reading of
the return value recovers the inserted list. -/
theorem reconcile_return_value_counterexample :
    (storeNewTagReads noFaults 0 [trA] []).count =
      (storeNewTagReads noFaults 0 [trB] []).count ∧
    (reconcileSpec noFaults 0 [trA] []).1 ≠ (reconcileSpec noFaults 0 [trB] []).1 ∧
    ¬∃ g : ℕ → List TagRead,
      g (storeNewTagReads noFaults 0 [trA] []).count = (reconcileSpec noFaults 0 [trA] []).1 ∧
      g (storeNewTagReads noFaults 0 [trB] []).count = (reconcileSpec noFaults 0 [trB] []).1 := by
  refine ⟨rfl, by decide, ?_⟩
  rintro ⟨g, hA, hB⟩
  have hc : (storeNewTagReads noFaults 0 [trA] []).count =
      (storeNewTagReads noFaults 0 [trB] []).count := rfl
  rw [hc, hB] at hA
  exact absurd hA (by decide)

/-- C3 amended: storeNewTagReads returns the number of newly inserted
records; that number equals the length of the input candidate sequence
restricted to the inserted candidates in input order (the list the
spec-level reconcile returns), and both compute the same store. -/
theorem reconcile_return_value_amended (f : Faults) (now : ℕ) (b : List TagRead) (s : Store) :
    (storeNewTagReads f now b s).count = (reconcileSpec f now b s).1.length ∧
    (storeNewTagReads f now b s).store = (reconcileSpec f now b s).2 ∧
    List.Sublist (reconcileSpec f now b s).1 b :=
  count_eq_spec f now b s

/-- C9: per-record date handling.  parseZapDate tries the five accepted
layouts in order until one succeeds (so a date matching only the third
layout still parses), and a candidate whose date matches no layout is
skipped by storeNewTagReads without error while the rest of the batch is
processed. -/
theorem date_layout_fallback :
    (∀ s : String, parseZapDate s = firstSome zapLayouts s.toList) ∧
    (∀ (s : String) (d : GoDate),
      layoutMDY s.toList = none → layoutMDY12 s.toList = none →
      layoutMDY24 s.toList = some d → parseZapDate s = some d) ∧
    (∀ (f : Faults) (now : ℕ) (tr : TagRead) (rest : List TagRead) (s : Store),
      parseZapDate tr.Date = none →
      storeNewTagReads f now (tr :: rest) s = storeNewTagReads f now rest s ∧
      (storeNewTagReads f now (tr :: rest) s).err = none) := by
  refine ⟨?_, ?_, ?_⟩
  · intro s
    unfold parseZapDate
    cases hL : layoutMDY s.toList with
    | none => rfl
    | some d => simp only [zapLayouts, firstSome, hL]
  · intro s d h1 h2 h3
    unfold parseZapDate
    simp only [zapLayouts, firstSome, h1, h2, h3]
  · intro f now tr rest s h
    refine ⟨by simp [storeNewTagReads, h], err_none f now (tr :: rest) s⟩

/-- date_layout_fallback applied to a date string only the third layout
accepts, and to a batch headed by an unparseable candidate. -/
theorem date_layout_fallback_witness :
    parseZapDate "03/14/2025 13:45:30" = some ⟨2025, 3, 14, 13, 45, 30⟩ ∧
    storeNewTagReads noFaults 0 [trBad, trA] [] = storeNewTagReads noFaults 0 [trA] [] :=
  ⟨date_layout_fallback.2.1 "03/14/2025 13:45:30" ⟨2025, 3, 14, 13, 45, 30⟩ rfl rfl rfl,
   (date_layout_fallback.2.2 noFaults 0 trBad [trA] [] rfl).1⟩

/-- C10: storeNewTagReads is infallible at the batch level.  Its error
return is nil for every batch, store and fault environment; an empty
batch returns count 0 with the store untouched; a candidate whose date
fails to parse or whose store operation fails is skipped while the rest
of the batch is processed as if it were absent; hence the branch of
Start that handles a non-nil storage error is never taken. -/
theorem store_infallible :
    (∀ (f : Faults) (now : ℕ) (b : List TagRead) (s : Store),
      (storeNewTagReads f now b s).err = none) ∧
    (∀ (f : Faults) (now : ℕ) (s : Store),
      storeNewTagReads f now [] s = ⟨0, none, s⟩) ∧
    (∀ (f : Faults) (now : ℕ) (tr : TagRead) (rest : List TagRead) (s : Store),
      (parseZapDate tr.Date = none ∨
        ∀ zd, parseZapDate tr.Date = some zd → f (formatISO zd) tr.TagID ≠ Fault.ok) →
      storeNewTagReads f now (tr :: rest) s = storeNewTagReads f now rest s) ∧
    (∀ (f : Faults) (now : ℕ) (b : List TagRead) (s : Store),
      startStoreErrorBranch (storeNewTagReads f now b s) = false) := by
  refine ⟨err_none, fun _ _ _ => rfl, ?_, ?_⟩
  · intro f now tr rest s h
    rcases h with h | h
    · simp [storeNewTagReads, h]
    · cases hp : parseZapDate tr.Date with
      | none => simp [storeNewTagReads, hp]
      | some zd =>
        have hne := h zd hp
        simp only [storeNewTagReads, hp]
        split_ifs with h1 h2 h3 h4
        · rfl
        · rfl
        · rfl
        · cases hv : f (formatISO zd) tr.TagID
          · exact absurd hv hne
          · exact absurd hv h1
          · exact absurd hv h2
          · exact absurd hv h4
        · rfl
  · intro f now b s
    simp [startStoreErrorBranch, err_none]

/-- store_infallible applied to a failing fault environment and to the
empty batch over a concrete store. -/
theorem store_infallible_witness :
    (storeNewTagReads allQFail 0 [trA] []).err = none ∧
    storeNewTagReads noFaults 0 [] [⟨"2024-01-02", "tagA", 5⟩] =
      ⟨0, none, [⟨"2024-01-02", "tagA", 5⟩]⟩ ∧
    storeNewTagReads allQFail 0 [trA] [] = storeNewTagReads allQFail 0 [] [] ∧
    startStoreErrorBranch (storeNewTagReads allQFail 0 [trA] []) = false :=
  ⟨store_infallible.1 allQFail 0 [trA] [],
   store_infallible.2.1 noFaults 0 [⟨"2024-01-02", "tagA", 5⟩],
   store_infallible.2.2.1 allQFail 0 trA [] []
     (Or.inr fun zd _ hok => by cases hok),
   store_infallible.2.2.2 allQFail 0 [trA] []⟩

/-! ### Lemmas about the record extractor -/

theorem rawFields_eq (cs : List HNode) : ∀ i, rawFields i cs =
    (List.range cs.length).map fun j =>
      ("field_" ++ toString (j + i), cellText (cs.getD j dummyCell)) := by
  induction cs with
  | nil => intro i; simp [rawFields]
  | cons c rest ih =>
    intro i
    simp only [rawFields, List.length_cons, List.range_succ_eq_map, List.map_cons,
      List.map_map]
    congr 1
    · simp
    · rw [ih (i + 1)]
      refine List.map_congr_left fun j hj => ?_
      have harith : j + (i + 1) = Nat.succ j + i := by omega
      simp [Function.comp, List.getD, harith]

theorem rowRecord_eq_rowSpec : ∀ n : HNode, rowRecord n = rowSpec n := by
  intro n
  cases n with
  | text s => simp [rowRecord, rowSpec, isTr, cellsOf]
  | other s => simp [rowRecord, rowSpec, isTr, cellsOf]
  | elem t a cs =>
    by_cases ht : t = "tr"
    · subst ht
      cases hcells : tds cs with
      | nil => simp [rowRecord, rowSpec, isTr, cellsOf, hcells]
      | cons c0 rest0 =>
        cases rest0 with
        | nil => simp [rowRecord, rowSpec, isTr, cellsOf, hcells]
        | cons c1 rest =>
          have hL : rowRecord (HNode.elem "tr" a cs) =
              if cellText c0 ≠ "" ∧ cellText c1 ≠ "" then
                some ⟨cellText c0, cellText c1, rawFields 2 rest⟩ else none := by
            simp [rowRecord, hcells]
          have h2len : 2 ≤ (c0 :: c1 :: rest).length := by
            simp only [List.length_cons]
            omega
          have hsub : (c0 :: c1 :: rest).length - 2 = rest.length := by
            simp only [List.length_cons]
            omega
          have hR : rowSpec (HNode.elem "tr" a cs) =
              if cellText c0 ≠ "" ∧ cellText c1 ≠ "" then
                some ⟨cellText c0, cellText c1,
                  (List.range rest.length).map fun j =>
                    ("field_" ++ toString (j + 2), cellText (rest.getD j dummyCell))⟩
              else none := by
            simp [rowSpec, cellsOf, hcells, isTr, h2len, hsub, List.getD]
          rw [hL, hR]
          by_cases hd : cellText c0 ≠ "" ∧ cellText c1 ≠ ""
          · rw [if_pos hd, if_pos hd, rawFields_eq rest 2]
          · rw [if_neg hd, if_neg hd]
    · simp [rowRecord, rowSpec, isTr, ht]

theorem rowRecord_rawdata_len (n : HNode) (r : TagRead) (h : rowRecord n = some r) :
    r.RawData.length + 2 = (cellsOf n).length := by
  rw [rowRecord_eq_rowSpec] at h
  simp only [rowSpec] at h
  split_ifs at h with hcond
  injection h with h
  subst h
  simp only [List.length_map, List.length_range]
  omega

mutual
theorem extract_eq : ∀ n : HNode, extractRows n = (trList n).filterMap rowRecord
  | .elem t a cs => by
    rw [extractRows, trList, extractF_eq cs]
    by_cases h : t = "tr"
    · subst h
      cases hr : rowRecord (HNode.elem "tr" a cs) <;>
        simp [hr, List.filterMap_cons]
    · simp [h]
  | .text s => by simp [extractRows, trList]
  | .other s => by simp [extractRows, trList]
theorem extractF_eq : ∀ fr : HForest, extractRowsF fr = (trListF fr).filterMap rowRecord
  | .nil => by simp [extractRowsF, trListF]
  | .cons n rest => by
    rw [extractRowsF, trListF, List.filterMap_append, extract_eq n, extractF_eq rest]
end

mutual
theorem findTable_none : ∀ n : HNode, findTable n = none ↔ hasReportTable n = false
  | .elem t a cs => by
    rw [findTable, hasReportTable]
    by_cases h : isReportTable (.elem t a cs)
    · simp [h]
    · simp [h, findTableF_none cs]
  | .text s => by simp [findTable, hasReportTable]
  | .other s => by simp [findTable, hasReportTable]
theorem findTableF_none : ∀ fr : HForest, findTableF fr = none ↔ hasReportTableF fr = false
  | .nil => by simp [findTableF, hasReportTableF]
  | .cons n rest => by
    rw [findTableF, hasReportTableF]
    cases hfn : findTable n with
    | some x =>
      have hnf : ¬hasReportTable n = false := fun hc => by
        rw [(findTable_none n).mpr hc] at hfn; cases hfn
      have htrue : hasReportTable n = true := by
        cases hb : hasReportTable n
        · exact absurd hb hnf
        · rfl
      simp [htrue]
    | none =>
      simp [(findTable_none n).mp hfn, findTableF_none rest]
end

/-! ### Claim theorems: record extractor -/

/-- C4: the extractor row rule.  The extraction of any subtree is the
document-order list of its row elements filtered through the row rule;
the row rule equals the spec-side rule (at least two cells, date and tag
from the trimmed texts of the first two cells, further cells keyed by
ordinal position, rows with fewer cells or empty trimmed texts skipped
with no error); and a produced record carries exactly cellCount minus 2
extra entries, so a 5-cell row yields 3. -/
theorem extractor_row_rule :
    (∀ n : HNode, extractRows n = (trList n).filterMap rowRecord) ∧
    (∀ n : HNode, rowRecord n = rowSpec n) ∧
    (∀ (n : HNode) (r : TagRead), rowRecord n = some r →
      r.RawData.length + 2 = (cellsOf n).length) :=
  ⟨extract_eq, rowRecord_eq_rowSpec, rowRecord_rawdata_len⟩

/-- extractor_row_rule applied to the sample three-cell row. -/
theorem extractor_row_rule_witness :
    (⟨"01/02/2024", "TAG1", [("field_2", "extra")]⟩ : TagRead).RawData.length + 2 =
      (cellsOf sampleRow).length :=
  extractor_row_rule.2.2 sampleRow ⟨"01/02/2024", "TAG1", [("field_2", "extra")]⟩ rfl

/-- C5: a missing report table is a hard error.  parseTagReadsE returns
the report-table-not-found error exactly when no table element of the
document has a class attribute containing "reportTable"; when one
exists, the result is the record list extracted from the first such
table. -/
theorem report_table_not_found : ∀ doc : HNode,
    ((parseTagReadsE doc = .error "report table not found in HTML response") ↔
      hasReportTable doc = false) ∧
    (hasReportTable doc = true →
      ∃ tbl, findTable doc = some tbl ∧ parseTagReadsE doc = .ok (extractRows tbl)) := by
  intro doc
  cases hf : findTable doc with
  | none =>
    refine ⟨?_, ?_⟩
    · simp [parseTagReadsE, hf, (findTable_none doc).mp hf]
    · intro htrue
      rw [(findTable_none doc).mp hf] at htrue
      cases htrue
  | some tbl =>
    refine ⟨?_, fun _ => ⟨tbl, rfl, by simp [parseTagReadsE, hf]⟩⟩
    constructor
    · intro herr
      rw [parseTagReadsE, hf] at herr
      cases herr
    · intro hfalse
      rw [(findTable_none doc).mpr hfalse] at hf
      cases hf

/-- report_table_not_found applied to a document without the marked
table and to one containing it. -/
theorem report_table_not_found_witness :
    parseTagReadsE emptyDoc = .error "report table not found in HTML response" ∧
    ∃ tbl, findTable sampleDoc = some tbl ∧ parseTagReadsE sampleDoc = .ok (extractRows tbl) :=
  ⟨(report_table_not_found emptyDoc).1.mpr rfl,
   (report_table_not_found sampleDoc).2 rfl⟩

/-! ### Claim theorems: login classification -/

/-- C8: login outcome precedence.  A body with the welcome marker is
success whatever the final URL; otherwise an explicit failure marker is
invalid credentials; otherwise HTTP 200 with a final URL outside the
login page (or inside the commuter area) is success; otherwise the
outcome is indeterminate; and success arises only from the welcome
marker or the 200-plus-logged-in-URL heuristic, never silently. -/
theorem login_outcome_precedence (body u : String) (st : ℕ) :
    (strContains body "Welcome," = true → classifyLogin body u st = .success) ∧
    (strContains body "Welcome," = false →
      (strContains body "Login failed" || strContains body "Invalid login") = true →
      classifyLogin body u st = .invalidCredentials) ∧
    (strContains body "Welcome," = false →
      (strContains body "Login failed" || strContains body "Invalid login") = false →
      st = 200 → (strContains u "s=commuter" || !strContains u "s=login") = true →
      classifyLogin body u st = .success) ∧
    (strContains body "Welcome," = false →
      (strContains body "Login failed" || strContains body "Invalid login") = false →
      (decide (st = 200) && (strContains u "s=commuter" || !strContains u "s=login")) = false →
      classifyLogin body u st = .indeterminate) ∧
    (classifyLogin body u st = .success →
      strContains body "Welcome," = true ∨
        (st = 200 ∧ (strContains u "s=commuter" || !strContains u "s=login") = true)) := by
  refine ⟨?_, ?_, ?_, ?_, ?_⟩ <;>
    · unfold classifyLogin
      split_ifs <;> intros <;> simp_all

/-- login_outcome_precedence applied to a response carrying the welcome
marker while its final URL points back at the login page, and to an
unrecognized response. -/
theorem login_outcome_precedence_witness :
    classifyLogin "Welcome, rider" "https://www.derozap.com/?s=login" 200 = .success ∧
    classifyLogin "something odd" "https://www.derozap.com/?s=login" 200 = .indeterminate :=
  ⟨(login_outcome_precedence "Welcome, rider" "https://www.derozap.com/?s=login" 200).1 rfl,
   (login_outcome_precedence "something odd" "https://www.derozap.com/?s=login" 200).2.2.2.1
     rfl rfl rfl⟩

/-! ### Lemmas about the fetch loop -/

theorem extractTotalPages_pos (body : String) : 1 ≤ extractTotalPages body := by
  unfold extractTotalPages
  cases h : scanPagination body.toList with
  | none => exact le_refl 1
  | some ds =>
    dsimp only
    cases ha : goAtoi ds with
    | none => exact le_refl 1
    | some n =>
      dsimp only
      split_ifs with hn <;> omega

theorem fetchRest_ok (net : Net) (total : ℕ) (pgs : ℕ → Page) (recs : ℕ → List TagRead)
    (k : ℕ) (acc : List TagRead)
    (h : ∀ j, k ≤ j → j ≤ total → net j = Except.ok (pgs j) ∧
      parseTagReadsE (pgs j).doc = Except.ok (recs j)) :
    fetchRest net total k acc =
      Except.ok (acc ++ (List.range' k (total + 1 - k)).flatMap recs) := by
  unfold fetchRest
  split_ifs with hk
  · obtain ⟨hnet, hparse⟩ := h k le_rfl hk
    simp only [hnet, hparse]
    rw [fetchRest_ok net total pgs recs (k + 1) (acc ++ recs k)
      (fun j hj1 hj2 => h j (by omega) hj2)]
    have h1 : total + 1 - k = (total - k) + 1 := by omega
    have h2 : total + 1 - (k + 1) = total - k := by omega
    rw [h1, h2, List.range'_succ, List.flatMap_cons, List.append_assoc]
  · have h0 : total + 1 - k = 0 := by omega
    simp [h0]
termination_by total + 1 - k

theorem fetchRest_err (net : Net) (total : ℕ) (pgs : ℕ → Page) (recs : ℕ → List TagRead)
    (k0 k : ℕ) (acc : List TagRead)
    (hk0 : k0 ≤ k) (hkN : k ≤ total)
    (hpre : ∀ j, k0 ≤ j → j < k → net j = Except.ok (pgs j) ∧
      parseTagReadsE (pgs j).doc = Except.ok (recs j))
    (hfail : (∃ e, net k = Except.error e) ∨
      ∃ p e, net k = Except.ok p ∧ parseTagReadsE p.doc = Except.error e) :
    ∃ e, fetchRest net total k0 acc = Except.error e := by
  unfold fetchRest
  split_ifs with hk
  · by_cases heq : k0 = k
    · subst heq
      rcases hfail with ⟨e, he⟩ | ⟨p, e, hp, he⟩
      · rw [he]
        exact ⟨e, rfl⟩
      · rw [hp]
        simp only [he]
        exact ⟨e, rfl⟩
    · obtain ⟨hnet, hparse⟩ := hpre k0 le_rfl (by omega)
      simp only [hnet, hparse]
      exact fetchRest_err net total pgs recs (k0 + 1) k (acc ++ recs k0)
        (by omega) hkN (fun j hj1 hj2 => hpre j (by omega) hj2) hfail
  · omega
termination_by total + 1 - k0

/-! ### Claim theorems: pagination and fetch failure -/

/-- C6: pagination completeness and page-count default.  When every page
1..N succeeds and parses, where N is the page count extracted from the
first page's body, FetchTagReads returns the concatenation of the
per-page record lists in page order (each page's records in document
order by C4); and the page count defaults to 1 both when the body has no
page-X-of-Y match and when the matched capture is unparseable (Atoi
range error on an overflowing count). -/
theorem pagination_completeness :
    (∀ (net : Net) (pgs : ℕ → Page) (recs : ℕ → List TagRead),
      (∀ j, 1 ≤ j → j ≤ extractTotalPages (pgs 1).body →
        net j = Except.ok (pgs j) ∧ parseTagReadsE (pgs j).doc = Except.ok (recs j)) →
      FetchTagReads net =
        Except.ok ((List.range' 1 (extractTotalPages (pgs 1).body)).flatMap recs)) ∧
    (∀ body : String, scanPagination body.toList = none → extractTotalPages body = 1) ∧
    (∀ (body : String) (ds : List Char), scanPagination body.toList = some ds →
      goAtoi ds = none → extractTotalPages body = 1) := by
  refine ⟨?_, ?_, ?_⟩
  · intro net pgs recs h
    obtain ⟨hnet1, hparse1⟩ := h 1 le_rfl (extractTotalPages_pos _)
    unfold FetchTagReads
    simp only [hnet1, hparse1]
    rw [fetchRest_ok net (extractTotalPages (pgs 1).body) pgs recs 2 (recs 1)
      (fun j hj1 hj2 => h j (by omega) hj2)]
    have hN := extractTotalPages_pos (pgs 1).body
    have h1 : extractTotalPages (pgs 1).body = (extractTotalPages (pgs 1).body - 1) + 1 := by
      omega
    have h2 : extractTotalPages (pgs 1).body + 1 - 2 = extractTotalPages (pgs 1).body - 1 := by
      omega
    rw [h2]
    conv_rhs => rw [h1]
    rw [List.range'_succ, List.flatMap_cons]
  · intro body hnone
    unfold extractTotalPages
    rw [hnone]
  · intro body ds hsome hatoi
    unfold extractTotalPages
    rw [hsome]
    dsimp only
    rw [hatoi]

/-- pagination_completeness applied to the two-page fixture transport,
to a body with no pagination string, and to a body whose matched page
count overflows a 64-bit int. -/
theorem pagination_completeness_witness :
    FetchTagReads netW =
      Except.ok [⟨"01/02/2024", "T1", []⟩, ⟨"01/03/2024", "T2", []⟩] ∧
    extractTotalPages "no counter here" = 1 ∧
    extractTotalPages "page 1 of 99999999999999999999" = 1 := by
  refine ⟨?_, ?_, ?_⟩
  · have h := pagination_completeness.1 netW pageW recsW ?_
    · exact h
    · intro j h1 h2
      have hN : extractTotalPages (pageW 1).body = 2 := rfl
      rw [hN] at h2
      have : j = 1 ∨ j = 2 := by omega
      rcases this with hj | hj <;> subst hj <;> exact ⟨rfl, rfl⟩
  · exact pagination_completeness.2.1 "no counter here" rfl
  · exact pagination_completeness.2.2 "page 1 of 99999999999999999999"
      (List.replicate 20 '9') rfl rfl

/-- C7: all-or-nothing fetch.  If the pages before k all succeed and
page k (within the page range read from page 1, or page 1 itself) hits a
transport, body-read or parse failure, FetchTagReads returns an error
and no record list. -/
theorem fetch_all_or_nothing (net : Net) (pgs : ℕ → Page) (recs : ℕ → List TagRead)
    (k : ℕ) (hk : 1 ≤ k)
    (hpre : ∀ j, 1 ≤ j → j < k → net j = Except.ok (pgs j) ∧
      parseTagReadsE (pgs j).doc = Except.ok (recs j))
    (hrange : k = 1 ∨ k ≤ extractTotalPages (pgs 1).body)
    (hfail : (∃ e, net k = Except.error e) ∨
      ∃ p e, net k = Except.ok p ∧ parseTagReadsE p.doc = Except.error e) :
    ∃ e, FetchTagReads net = Except.error e := by
  by_cases h1 : k = 1
  · subst h1
    unfold FetchTagReads
    rcases hfail with ⟨e, he⟩ | ⟨p, e, hp, he⟩
    · rw [he]
      exact ⟨e, rfl⟩
    · rw [hp]
      simp only [he]
      exact ⟨e, rfl⟩
  · have hk2 : 2 ≤ k := by omega
    have hkN : k ≤ extractTotalPages (pgs 1).body := by
      rcases hrange with h | h
      · omega
      · exact h
    obtain ⟨hnet1, hparse1⟩ := hpre 1 le_rfl (by omega)
    unfold FetchTagReads
    simp only [hnet1, hparse1]
    exact fetchRest_err net (extractTotalPages (pgs 1).body) pgs recs 2 k (recs 1)
      hk2 hkN (fun j hj1 hj2 => hpre j (by omega) hj2) hfail

/-- fetch_all_or_nothing applied to a transport that fails on the first
request. -/
theorem fetch_all_or_nothing_witness :
    ∃ e, FetchTagReads netDown = Except.error e :=
  fetch_all_or_nothing netDown (fun _ => mkPage "" "" "") (fun _ => []) 1 le_rfl
    (fun j hj1 hj2 => absurd hj2 (by omega))
    (Or.inl rfl)
    (Or.inl ⟨"connection refused", rfl⟩)

end Derozap
